import Mathlib

/-!
# Verification of the sinksmtp rule engine and DNS domain-validity classifier

Shallow embedding of the rule-expression evaluator (rule nodes, `Rule.check`,
the matcher nodes) and of the DNS domain-validity classifier (`checkIP`,
`ValidDomain`) of the sinksmtp repository, together with theorems settling
the frozen claims about them.

Go machine details are embedded as follows: the per-connection `Context` is
explicit state threaded through evaluation; external collaborators (the
pattern-list source, the DNSBL probe, the address attribute classifier and
the DNS resolver) are oracle function fields, since they perform I/O; Go code
that can panic (an out-of-range slice) returns `Option`, with `none` for the
panic.  Go `uint64` bitmask values fit in `Nat` (no overflow is possible:
only single-bit constants up to 2^25 and their unions occur).
-/

namespace Sinksmtp

/-! ## Supporting enumerations (rnode.go)

`Phase` and `Action` are the Go enums of the same names; `Result` is the Go
`type Result bool`. -/

/-- SMTP conversation phase (`type Phase int`; `pAny` is the zero value). -/
inductive Phase where
  | pAny | pConnect | pHelo | pMfrom | pRto | pData | pMessage
deriving DecidableEq, Repr

/-- Action taken on a successful rule match, weakest to strongest
(`aError`, `aNoresult`, `aAccept`, `aStall`, `aReject`). -/
inductive GoAction where
  | aError | aNoresult | aAccept | aStall | aReject
deriving DecidableEq, Repr

/-- `type Result bool`: the result of evaluating a rule expression. -/
abbrev Result := Bool

/-! ## The Option bitmask (`type Option uint64`)

The Go type is called `Option`; that name collides with Lean's `Option`, so
the type is `Nat` here and the constants keep their Go names.  The values
follow the Go `iota` sequence: `oZero = 0`, then `oHelo = 1 << 1` up to
`oFrom = 1 << 25`. -/

def oZero : Nat := 0
def oHelo : Nat := 2 ^ 1
def oEhlo : Nat := 2 ^ 2
def oNone : Nat := 2 ^ 3
def oBogus : Nat := 2 ^ 4
def oNodots : Nat := 2 ^ 5
def oBareip : Nat := 2 ^ 6
def oProperip : Nat := 2 ^ 7
def oMyip : Nat := 2 ^ 8
def oRemip : Nat := 2 ^ 9
def oOtherip : Nat := 2 ^ 10
def oNodns : Nat := 2 ^ 11
def oInconsist : Nat := 2 ^ 12
def oNofwd : Nat := 2 ^ 13
def oGood : Nat := 2 ^ 14
def oExists : Nat := 2 ^ 15
def oUnqualified : Nat := 2 ^ 16
def oRoute : Nat := 2 ^ 17
def oQuoted : Nat := 2 ^ 18
def oNoat : Nat := 2 ^ 19
def oGarbage : Nat := 2 ^ 20
def oDomainValid : Nat := 2 ^ 21
def oDomainInvalid : Nat := 2 ^ 22
def oDomainTempfail : Nat := 2 ^ 23
def oHost : Nat := 2 ^ 24
def oFrom : Nat := 2 ^ 25

/-- Merged bitmap `oBad = oUnqualified | oRoute | oNoat | oGarbage`. -/
def oBad : Nat := oUnqualified ||| oRoute ||| oNoat ||| oGarbage
/-- Merged bitmap `oIp = oBareip | oProperip`. -/
def oIp : Nat := oBareip ||| oProperip
/-- Merged bitmap `oAny = oHost | oEhlo | oFrom`. -/
def oAny : Nat := oHost ||| oEhlo ||| oFrom

/-! ## The per-connection Context

The Go `Context` type (context.go, the engine's mutable per-connection
state).  The fields used by the rule nodes are embedded directly; the
collaborators the matchers consult are oracle function fields. -/

/-- The three reverse-DNS name lists on `c.trans.rdns`. -/
structure RDns where
  verified : List String
  nofwd : List String
  inconsist : List String

/-- The transaction data the nodes read from `c.trans`. -/
structure TransData where
  rip : String
  tlson : Bool
  rdns : RDns

/-- Per-connection evaluation context.  `fromAddr`/`rcptto` are Go's
`c.from`/`c.rcptto` (`from` is a Lean keyword).  `matchlists` is the
pattern-list source `c.getMatchList`, `dnsblprobe` is the DNS-listed probe
`c.getDnsblRes`, and `addrOptions` is the address attribute classifier
`getAddrOpts(addr, c)`; all three are modelled from the spec as
per-connection oracles, since their code is not under src/ and they consult
files and DNS. `withprops` and `dnsblhits` are the accumulated with-property
map and the ordered DNSBL hit log. -/
structure Context where
  heloname : String
  fromAddr : String
  rcptto : String
  rulemiss : Bool
  withprops : List (String × String)
  dnsblhits : List String
  trans : TransData
  matchlists : String → List String
  dnsblprobe : String → Bool
  addrOptions : String → Nat

/-- Modelled from the spec: `c.addDnsblHit(dom)` appends `dom` to the
Context's ordered log of DNS-blocklist domains that produced a hit. -/
def Context.addDnsblHit (c : Context) (dom : String) : Context :=
  { c with dnsblhits := c.dnsblhits ++ [dom] }

/-! ## Host and address matching (rules.go, modelled from the spec) -/

/-- `strings.ToLower`, character by character (the strings the engine
lower-cases are ASCII DNS names and addresses, where this agrees with Go's
Unicode mapping). -/
def strToLower (s : String) : String := ⟨s.data.map Char.toLower⟩

/-- Modelled from the spec: `matchHost` lives in rules.go, which is not under
src/.  Host pattern syntax: `b` matches exactly; `.b` matches `b` itself or
any name ending in `.b`. -/
def matchHost (host pat : String) : Bool :=
  if pat.startsWith "." then host == pat.drop 1 || host.endsWith pat
  else host == pat

/-- Modelled from the spec: `matchAddress` lives in rules.go, which is not
under src/.  Address pattern syntax: `<>` matches only the null sender;
`a@b` matches literally; `a@` matches the local part against `a`; `@b`
matches the domain exactly; `@.b` matches the domain or a subdomain of it;
`@` matches any qualified address.  Matching lower-cases both sides first. -/
def matchAddress (addr pat : String) : Bool :=
  let a := strToLower addr
  let p := strToLower pat
  if p == "<>" then a == ""
  else
    let parts := a.splitOn "@"
    let alocal := parts.getD 0 ""
    let adom := if parts.length ≥ 2 then String.intercalate "@" (parts.drop 1) else ""
    if p == "@" then parts.length == 2 && alocal != "" && adom != ""
    else if p.startsWith "@." then matchHost adom (p.drop 1)
    else if p.startsWith "@" then adom == p.drop 1
    else if p.endsWith "@" then alocal == p.dropRight 1
    else a == p

/-- `matchFromHost(addr, host)` from rnode.go: glue `@` on front of the host
and call `matchAddress`. -/
def matchFromHost (addr host : String) : Bool :=
  matchAddress addr ("@" ++ host)

/-! ## Expression nodes (rnode.go)

Go's `Expr` interface with its node structs becomes one inductive.  `MatchN`
carries its `matcher` and `getter` function fields exactly as the Go struct
does; `matchSource` stores its three sub-nodes. -/

/-- Rule AST node: `AndL`, `NotN`, `OrN`, `AllN`, `TlsN`, `DNSblN`, `MatchN`,
`matchSource`, `DblNode`, `OptionN`. -/
inductive Expr where
  | andL (nodes : List Expr)
  | notN (node : Expr)
  | orN (left right : Expr)
  | allN
  | tlsN (isOn : Bool)
  | dnsblN (domain : String)
  | matchN (what arg : String) (matcher : String → String → Bool)
      (getter : Context → List String)
  | sourceN (arg : String) (host ehlo fromN : Expr)
  | dblN (domain : String) (src : Nat)
  | optionN (what : String) (opts : Nat) (getter : Context → Nat)

/-- `DNSblN.Eval`: reject outright unless the remote IP splits on `.` into
exactly four octets; then probe `"o4.o3.o2.o1.<domain>"` and record a hit
against the node's domain when the probe is positive. -/
def dnsblEval (domain : String) (c : Context) : Bool × Context :=
  if c.trans.rip == "" then (false, c)
  else
    let s := c.trans.rip.splitOn "."
    if s.length != 4 then (false, c)
    else
      let ln := s.getD 3 "" ++ "." ++ s.getD 2 "" ++ "." ++ s.getD 1 "" ++ "."
        ++ s.getD 0 "" ++ "." ++ domain
      let res := c.dnsblprobe ln
      if res then (res, c.addDnsblHit domain) else (res, c)

/-- `MatchN.Eval`: resolve the argument to a pattern list; an empty list
raises `rulemiss` and yields false; otherwise the node matches when any
pattern matches any literal supplied by the getter. -/
def matchEval (arg : String) (matcher : String → String → Bool)
    (getter : Context → List String) (c : Context) : Bool × Context :=
  let plist := c.matchlists arg
  if plist.isEmpty then (false, { c with rulemiss := true })
  else (plist.any fun p => (getter c).any fun e => matcher e p, c)

/-- `s[:len(s)-1]` on a Go string: drops the final character, and panics
(`none`) when the string is empty (`len(s)-1` underflows the slice bound).
DNS names here are ASCII, so byte and character slicing agree. -/
def stripDot (s : String) : Option String :=
  if s.isEmpty then none else some (s.dropRight 1)

/-- Insertion into the Go `check` map: a map key is stored once, so inserting
an existing name leaves the set unchanged. -/
def insertName (l : List String) (s : String) : List String :=
  if s ∈ l then l else l ++ [s]

/-- Insert every listed reverse-DNS name into the candidate set with its
trailing root dot stripped; `none` when some name is empty (Go panic). -/
def insertStripped (l : List String) : List String → Option (List String)
  | [] => some l
  | s :: rest => do
    let t ← stripDot s
    insertStripped (insertName l t) rest

/-- `c.from[idx+1:]` where `idx = strings.IndexByte(c.from, '@')`: the text
after the first `@`, or the whole string when there is no `@` (idx = -1, so
the slice starts at 0). -/
def afterAt (s : String) : String :=
  match s.splitOn "@" with
  | [] => s
  | [_] => s
  | _ :: rest => String.intercalate "@" rest

/-- The deduplicated set of names a `DblNode` checks, in the Go insertion
order (helo name; verified, no-forward and inconsistent reverse-DNS names
with the trailing dot stripped; the MAIL FROM domain when the address's
attribute classification marked its domain valid/invalid/tempfail).  `none`
when the reverse-DNS stripping panics.  The Go `check` is a map, so this
particular order is one arbitrary enumeration of the set; order independence
is proved separately. -/
def dblCandidates (src : Nat) (c : Context) : Option (List String) := do
  let check0 : List String :=
    if (src &&& (oEhlo ||| oHelo)) != 0 && c.heloname != "" then
      insertName [] c.heloname
    else []
  let check1 ←
    if (src &&& oHost) == oHost then do
      let a ← insertStripped check0 c.trans.rdns.verified
      let b ← insertStripped a c.trans.rdns.nofwd
      insertStripped b c.trans.rdns.inconsist
    else pure check0
  let check2 :=
    if (src &&& oFrom) == oFrom && c.fromAddr != "" then
      if (c.addrOptions c.fromAddr &&&
          (oDomainValid ||| oDomainInvalid ||| oDomainTempfail)) != 0 then
        insertName check1 (afterAt c.fromAddr)
      else check1
    else check1
  pure check2

/-- The `for s := range check` loop body of `DblNode.Eval`: probe
`"<s>.<domain>"` for every candidate, recording a hit against the DBL domain
each time the probe is positive; no short-circuit on a hit. -/
def dblLoop (domain : String) : List String → Bool → Context → Bool × Context
  | [], ret, c => (ret, c)
  | s :: rest, ret, c =>
    let ln := s ++ "." ++ domain
    let res := c.dnsblprobe ln
    if res then dblLoop domain rest true (c.addDnsblHit domain)
    else dblLoop domain rest ret c

/-- `DblNode.Eval`: collect the candidate set, return false when it is empty,
otherwise run the probe loop.  `none` models the Go panic on an empty
reverse-DNS name. -/
def dblEval (domain : String) (src : Nat) (c : Context) : Option (Bool × Context) :=
  (dblCandidates src c).map fun check =>
    if check.isEmpty then (false, c) else dblLoop domain check false c

mutual

/-- `Expr.Eval`: evaluate a node against the context.  State threads through
explicitly; `none` is a Go panic (reachable only through `dbl` with an empty
reverse-DNS name). -/
def Expr.Eval : Expr → Context → Option (Bool × Context)
  | .andL ns, c => evalAndList ns c
  | .notN n, c =>
    match Expr.Eval n c with
    | some (r, c1) => some (!r, c1)
    | none => none
  | .orN l r, c =>
    match Expr.Eval l c with
    | some (true, c1) => some (true, c1)
    | some (false, c1) => Expr.Eval r c1
    | none => none
  | .allN, c => some (true, c)
  | .tlsN isOn, c => some (isOn == c.trans.tlson, c)
  | .dnsblN domain, c => some (dnsblEval domain c)
  | .matchN _ arg matcher getter, c => some (matchEval arg matcher getter c)
  | .sourceN _ h e f, c =>
    match Expr.Eval h c with
    | some (true, c1) => some (true, c1)
    | some (false, c1) =>
      match Expr.Eval e c1 with
      | some (true, c2) => some (true, c2)
      | some (false, c2) => Expr.Eval f c2
      | none => none
    | none => none
  | .dblN domain src, c => dblEval domain src c
  | .optionN _ opts getter, c => some (decide (opts &&& getter c > 0), c)

/-- `AndL.Eval`'s loop: left to right, stopping at the first false; an empty
node list evaluates to true. -/
def evalAndList : List Expr → Context → Option (Bool × Context)
  | [], c => some (true, c)
  | n :: ns, c =>
    match Expr.Eval n c with
    | some (r, c1) => if r then evalAndList ns c1 else some (r, c1)
    | none => none

end

/-! ## Node constructors (rnode.go) -/

/-- `newHeloNode`: match the HELO name against host patterns. -/
def newHeloNode (arg : String) : Expr :=
  .matchN "helo" arg matchHost fun c => [c.heloname]

/-- `newHostNode`: match all verified hostnames against host patterns. -/
def newHostNode (arg : String) : Expr :=
  .matchN "host" arg matchHost fun c => c.trans.rdns.verified

/-- `newFromNode`: match the MAIL FROM address against address patterns. -/
def newFromNode (arg : String) : Expr :=
  .matchN "from" arg matchAddress fun c => [c.fromAddr]

/-- `newToNode`: match the RCPT TO address against address patterns. -/
def newToNode (arg : String) : Expr :=
  .matchN "to" arg matchAddress fun c => [c.rcptto]

/-- The `from` member built inside `newSourceNode`: a from-style matcher
using `matchFromHost`, so each resolved pattern gets `@` glued on front. -/
def sourceFromNode (arg : String) : Expr :=
  .matchN "source_from" arg matchFromHost fun c => [c.fromAddr]

/-- `newSourceNode`: a `matchSource` storing `host arg`, `helo arg` and the
`matchFromHost`-based from matcher. -/
def newSourceNode (arg : String) : Expr :=
  .sourceN arg (newHostNode arg) (newHeloNode arg) (sourceFromNode arg)

/-- `newDblNode`. -/
def newDblNode (typ : Nat) (arg : String) : Expr :=
  .dblN arg typ

/-! ## Rules and Rule.check (rnode.go) -/

/-- `RClause`: one expression plus its with options.  The Go `withs` is a
`map[string]string`; its entry set is embedded as an association list. -/
structure RClause where
  expr : Expr
  withs : List (String × String)

/-- `Rule`: clauses, resulting action, required phase, defer-to phase. -/
structure Rule where
  clauses : List RClause
  result : GoAction
  requires : Phase
  deferto : Phase

/-- `c.withprops[k] = v`: map assignment on the accumulated with-property
entries (replace an existing key, otherwise append). -/
def setProp (m : List (String × String)) (k v : String) : List (String × String) :=
  if m.any fun kv => kv.1 == k then
    m.map fun kv => if kv.1 == k then (k, v) else kv
  else m ++ [(k, v)]

/-- `for k, v := range withs { c.withprops[k] = v }`: merge a clause's with
options into the context (map-valued, so fold order is immaterial). -/
def mergeWiths (w : List (String × String)) (c : Context) : Context :=
  { c with withprops := w.foldl (fun m kv => setProp m kv.1 kv.2) c.withprops }

/-- The clause loop of `Rule.check`: evaluate each clause in turn; a set
`rulemiss` abandons the whole rule with false; a false clause continues; a
true clause merges its withs and returns true. -/
def checkClauses : List RClause → Context → Option (Result × Context)
  | [], c => some (false, c)
  | cl :: rest, c =>
    match Expr.Eval cl.expr c with
    | some (res, c1) =>
      if c1.rulemiss then some (false, c1)
      else if !res then checkClauses rest c1
      else some (res, mergeWiths cl.withs c1)
    | none => none

/-- `Rule.check`: reset `rulemiss`, then scan the clauses. -/
def Rule.check (r : Rule) (c : Context) : Option (Result × Context) :=
  checkClauses r.clauses { c with rulemiss := false }

/-! ## DNS domain-validity classifier (valid_test.go's subject, part_001)

`dnsResult`, `isTemporary`, `checkIP` and `ValidDomain`.  The Go `net`
resolver is an oracle environment; a Go `error` is embedded as either a
`*net.DNSError` (with its `Err` string and `Temporary()` answer) or a plain
`fmt.Errorf` error; a `net.IP` is embedded by its text plus the two
classification answers the code asks of it. -/

/-- `type dnsResult int`, in order from bad to good results. -/
inductive dnsResult where
  | dnsUndef | dnsBad | dnsTempfail | dnsGood
deriving DecidableEq, Repr

open dnsResult

/-- The bad-to-good order on `dnsResult` (the underlying Go int value). -/
def dnsResult.toNat : dnsResult → Nat
  | dnsUndef => 0
  | dnsBad => 1
  | dnsTempfail => 2
  | dnsGood => 3

/-- `v > valid` comparison on `dnsResult` (Go compares the ints). -/
def dnsLt (a b : dnsResult) : Bool := a.toNat < b.toNat

/-- The better of two `dnsResult`s under the bad-to-good order. -/
def dnsMax (a b : dnsResult) : dnsResult := if dnsLt a b then b else a

/-- A Go `error` as the classifier observes it: either a `*net.DNSError`
(its `Err` string plus its `Temporary()` answer) or any other error with its
message (the type assertion in `isTemporary` fails on those). -/
inductive GoError where
  | dnsError (errstr : String) (temporary : Bool)
  | plain (msg : String)
deriving DecidableEq, Repr

/-- The SERVFAIL error string from src/net/dnsclient.go. -/
def serverrstr : String := "server misbehaving"

/-- `isTemporary(err)`: a `*net.DNSError` whose `Temporary()` is true or
whose `Err` equals `serverrstr`; false for every other error. -/
def isTemporary : GoError → Bool
  | .dnsError e t => t || (e == serverrstr)
  | .plain _ => false

/-- The message text of an error, as `fmt.Errorf("%s", err)` renders it. -/
def GoError.text : GoError → String
  | .dnsError e _ => e
  | .plain m => m

/-- A `net.IP` as `checkIP` observes it: its text, its `IsGlobalUnicast()`
answer, and whether it lies in one of the private/reserved blocks 10/8,
172.16/12, 192.168/16, FC00::/7, FEC0::/10. -/
structure IP where
  str : String
  globalUnicast : Bool
  privateSpace : Bool
deriving DecidableEq, Repr

/-- A `net.MX` record. -/
structure MX where
  Host : String
  Pref : Nat
deriving DecidableEq, Repr

/-- The DNS resolver capability: `net.LookupMX` and `net.LookupIP`.  A Go
`(result, err)` pair with exactly one side set becomes `Except`. -/
structure DNSEnv where
  lookupMX : String → Except GoError (List MX)
  lookupIP : String → Except GoError (List IP)

/-- The address scan inside `checkIP`: the first address that is not a
global unicast address, or that is in the bad address space, makes the host
bad; otherwise the host is good. -/
def checkAddrs (domain : String) : List IP → dnsResult × Option GoError
  | [] => (dnsGood, none)
  | i :: rest =>
    if !i.globalUnicast then
      (dnsBad, some (.plain ("host " ++ domain ++ " IP " ++ i.str ++ " not global unicast")))
    else if i.privateSpace then
      (dnsBad, some (.plain ("host " ++ domain ++ " IP " ++ i.str ++ " is in bad address space")))
    else checkAddrs domain rest

/-- `checkIP(domain)`: a temporary lookup error is tempfail, any other error
or an empty address list is bad, and otherwise the addresses are scanned. -/
def checkIP (env : DNSEnv) (domain : String) : dnsResult × Option GoError :=
  match env.lookupIP domain with
  | .error err =>
    if isTemporary err then (dnsTempfail, some err) else (dnsBad, some err)
  | .ok addrs =>
    if addrs.isEmpty then (dnsBad, some (.plain (domain ++ ": no IPs")))
    else checkAddrs domain addrs

/-- The MX loop of `ValidDomain`: an RFC 7505 null MX (`.` at preference 0)
or any MX whose lower-cased target is `.` or `localhost.` returns bad at
once; otherwise each target's `checkIP` result replaces the accumulator when
it is strictly better, keeping that target's error.  Go's loop locals `lc`
and `vr` are inlined (`checkIP` is pure). -/
def mxLoop (env : DNSEnv) (domain : String) :
    List MX → dnsResult → Option GoError → dnsResult × Option GoError
  | [], valid, verr => (valid, verr)
  | m :: rest, valid, verr =>
    if m.Host == "." && m.Pref == 0 then
      (dnsBad, some (.plain (domain ++ ": RFC 7505 null MX")))
    else if strToLower m.Host == "." || strToLower m.Host == "localhost." then
      (dnsBad, some (.plain ("rejecting bogus MX " ++ toString m.Pref ++ " " ++ m.Host)))
    else if dnsLt valid (checkIP env m.Host).1 then
      mxLoop env domain rest (checkIP env m.Host).1 (checkIP env m.Host).2
    else mxLoop env domain rest valid verr

/-- `ValidDomain(domain)`: look up MX records for `domain.`; a temporary
failure is tempfail, any other failure falls back to `checkIP(domain.)`, and
a successful lookup runs the MX loop starting from `dnsUndef`. -/
def ValidDomain (env : DNSEnv) (domain : String) : dnsResult × Option GoError :=
  match env.lookupMX (domain ++ ".") with
  | .error err =>
    if isTemporary err then
      (dnsTempfail, some (.plain ("MX tempfail: " ++ err.text)))
    else checkIP env (domain ++ ".")
  | .ok mxs => mxLoop env domain mxs dnsUndef none

/-- Claim-side definition: the maximum of the `checkIP` classifications over
a list of MX targets, under the bad < tempfail < good order (folded from the
bottom element `dnsUndef`). -/
def specMaxMX (env : DNSEnv) (mxs : List MX) : dnsResult :=
  mxs.foldl (fun a m => dnsMax a (checkIP env m.Host).1) dnsUndef

/-! ## Concrete contexts and environments used by witnesses -/

/-- A concrete per-connection context: reverse-DNS names present in all
three lists, an empty remote IP, empty pattern lists, a probe that always
hits, and an address classifier returning no attributes. -/
def cDemo : Context where
  heloname := "helo.example"
  fromAddr := "joe@a.b"
  rcptto := "to@c.d"
  rulemiss := false
  withprops := []
  dnsblhits := []
  trans := { rip := "", tlson := false,
             rdns := { verified := ["v.example."], nofwd := ["n.example."],
                       inconsist := ["i.example."] } }
  matchlists := fun _ => []
  dnsblprobe := fun _ => true
  addrOptions := fun _ => 0

/-- Like `cDemo` but with a one-pattern list for every argument. -/
def cDemoPat : Context := { cDemo with matchlists := fun _ => ["@a.b"] }

/-- A resolver whose MX lookup succeeds with an empty record list. -/
def envEmptyMX : DNSEnv where
  lookupMX := fun _ => .ok []
  lookupIP := fun _ => .ok []

/-! # Theorems settling the claims -/

/-- C1: `Rule.check` first clears the data-unavailable signal, then walks
the clauses in order; whenever the evaluation of one clause's full
expression leaves the signal set, the whole Rule reports no-match with that
clause's output context — its with-properties are not merged and no later
clause is evaluated — regardless of the boolean the clause produced. -/
theorem rule_check_clears_then_abandons_on_rulemiss :
    (∀ (r : Rule) (c : Context),
      Rule.check r c = checkClauses r.clauses { c with rulemiss := false })
    ∧ (∀ (cl : RClause) (rest : List RClause) (c c1 : Context) (res : Bool),
      Expr.Eval cl.expr c = some (res, c1) → c1.rulemiss = true →
      checkClauses (cl :: rest) c = some (false, c1)) := by
  constructor
  · intro r c
    rfl
  · intro cl rest c c1 res h hm
    simp [checkClauses, h, hm]

/-- Witness for C1: a two-clause rule whose first clause raises the signal;
the scan stops at once with the signal-bearing context, untouched by the
clause's with map and by the second clause. -/
theorem rule_check_clears_then_abandons_on_rulemiss_witness :
    Expr.Eval (.matchN "from" "f" (fun _ _ => false) fun _ => []) cDemo
      = some (false, { cDemo with rulemiss := true })
    ∧ ({ cDemo with rulemiss := true } : Context).rulemiss = true
    ∧ checkClauses
        [⟨.matchN "from" "f" (fun _ _ => false) fun _ => [], [("k", "v")]⟩, ⟨.allN, []⟩]
        cDemo = some (false, { cDemo with rulemiss := true }) :=
  ⟨by simp [Expr.Eval, matchEval, cDemo], rfl,
   rule_check_clears_then_abandons_on_rulemiss.2
     ⟨.matchN "from" "f" (fun _ _ => false) fun _ => [], [("k", "v")]⟩
     [⟨.allN, []⟩] cDemo { cDemo with rulemiss := true } false
     (by simp [Expr.Eval, matchEval, cDemo]) rfl⟩

/-- C6: a generic pattern matcher node whose argument resolves to an empty
pattern list raises the data-unavailable signal and returns false; with a
non-empty list it leaves the context untouched (in particular it never
raises the signal) and returns true exactly when some literal from its
getter matches some pattern under its matching function. -/
theorem matchN_empty_raises_else_pure_match (what arg : String)
    (matcher : String → String → Bool) (getter : Context → List String) (c : Context) :
    (c.matchlists arg = [] →
      Expr.Eval (.matchN what arg matcher getter) c
        = some (false, { c with rulemiss := true }))
    ∧ (c.matchlists arg ≠ [] →
      Expr.Eval (.matchN what arg matcher getter) c
        = some ((c.matchlists arg).any fun p => (getter c).any fun e => matcher e p, c)
      ∧ (((c.matchlists arg).any fun p => (getter c).any fun e => matcher e p) = true ↔
          ∃ p ∈ c.matchlists arg, ∃ e ∈ getter c, matcher e p = true)) := by
  constructor
  · intro h
    simp [Expr.Eval, matchEval, h]
  · intro h
    have hne : (c.matchlists arg).isEmpty = false := by
      simp [List.isEmpty_iff, h]
    constructor
    · simp [Expr.Eval, matchEval, hne]
    · simp [List.any_eq_true]

/-- Witness for C6: with the one-pattern list of `cDemoPat` and an
equality matcher, the node matches its own pattern without touching the
context. -/
theorem matchN_empty_raises_else_pure_match_witness :
    cDemoPat.matchlists "x" ≠ []
    ∧ (Expr.Eval (.matchN "from" "x" (fun e p => e == p) fun _ => ["@a.b"]) cDemoPat
        = some ((cDemoPat.matchlists "x").any fun p =>
            ((fun _ => ["@a.b"]) cDemoPat).any fun e => (e == p), cDemoPat)
      ∧ (((cDemoPat.matchlists "x").any fun p =>
            ((fun _ => ["@a.b"]) cDemoPat).any fun e => (e == p)) = true ↔
          ∃ p ∈ cDemoPat.matchlists "x", ∃ e ∈ ((fun _ => ["@a.b"]) cDemoPat), (e == p) = true)) :=
  ⟨by simp [cDemoPat, cDemo],
   (matchN_empty_raises_else_pure_match "from" "x" (fun e p => e == p)
     (fun _ => ["@a.b"]) cDemoPat).2 (by simp [cDemoPat, cDemo])⟩

/-- C7: `OrN.Eval` evaluates the left operand first and, on a true result,
returns that result and context without evaluating the right operand at all
(the outcome is the same for every right operand); consequently a rule whose
single clause is `all or from FILE` matches in every context, with the
data-unavailable signal clear in the resulting context, whatever pattern
list FILE resolves to. -/
theorem orN_short_circuits_all_or_from :
    (∀ (l r r' : Expr) (c c1 : Context), Expr.Eval l c = some (true, c1) →
      Expr.Eval (.orN l r) c = some (true, c1)
      ∧ Expr.Eval (.orN l r) c = Expr.Eval (.orN l r') c)
    ∧ (∀ (arg : String) (w : List (String × String)) (act : GoAction)
        (rq df : Phase) (c : Context),
      Rule.check ⟨[⟨.orN .allN (newFromNode arg), w⟩], act, rq, df⟩ c
        = some (true, mergeWiths w { c with rulemiss := false })
      ∧ (mergeWiths w { c with rulemiss := false }).rulemiss = false) := by
  constructor
  · intro l r r' c c1 h
    constructor <;> simp [Expr.Eval, h]
  · intro arg w act rq df c
    constructor
    · simp [Rule.check, checkClauses, Expr.Eval]
    · simp [mergeWiths]

/-- Witness for C7: short-circuit past a `tls` right operand, and the
`accept all or from /missing/file` rule matching on a context whose pattern
source resolves every argument to the empty list. -/
theorem orN_short_circuits_all_or_from_witness :
    Expr.Eval .allN cDemo = some (true, cDemo)
    ∧ Expr.Eval (.orN .allN (.tlsN true)) cDemo = some (true, cDemo)
    ∧ Rule.check ⟨[⟨.orN .allN (newFromNode "/missing/file"), []⟩], .aAccept, .pAny, .pAny⟩
        cDemo = some (true, mergeWiths [] { cDemo with rulemiss := false }) :=
  ⟨by simp [Expr.Eval],
   (orN_short_circuits_all_or_from.1 .allN (.tlsN true) (.tlsN true) cDemo cDemo
     (by simp [Expr.Eval])).1,
   (orN_short_circuits_all_or_from.2 "/missing/file" [] .aAccept .pAny .pAny cDemo).1⟩

/-- C8: evaluating a `source HPAT` node is the very same computation —
boolean result and context effects — as evaluating
`(host HPAT or (helo HPAT or FROM'))`, where `FROM'` matches the MAIL FROM
address with `matchFromHost` (each resolved pattern of HPAT with `@` glued
on front), in the short-circuit order host, helo, from. -/
theorem sourceN_refines_or_chain (arg : String) (c : Context) :
    Expr.Eval (newSourceNode arg) c
      = Expr.Eval (.orN (newHostNode arg) (.orN (newHeloNode arg) (sourceFromNode arg))) c := by
  cases h1 : Expr.Eval (newHostNode arg) c with
  | none => simp [newSourceNode, Expr.Eval, h1]
  | some rc =>
    obtain ⟨b1, c1⟩ := rc
    cases b1 with
    | true => simp [newSourceNode, Expr.Eval, h1]
    | false =>
      cases h2 : Expr.Eval (newHeloNode arg) c1 with
      | none => simp [newSourceNode, Expr.Eval, h1, h2]
      | some rc2 =>
        obtain ⟨b2, c2⟩ := rc2
        cases b2 with
        | true => simp [newSourceNode, Expr.Eval, h1, h2]
        | false => simp [newSourceNode, Expr.Eval, h1, h2]

/-- C10: with an empty remote IP string, or one that does not split on `.`
into exactly four fields, the `dnsbl` matcher returns false with the context
unchanged: no DNSBL hit is recorded and the data-unavailable signal is not
raised (and, the outcome being fixed for every context with such an IP, no
probe result can influence it). -/
theorem dnsblN_ipv4_guard (domain : String) (c : Context)
    (h : c.trans.rip = "" ∨ (c.trans.rip.splitOn ".").length ≠ 4) :
    Expr.Eval (.dnsblN domain) c = some (false, c) := by
  by_cases hr : c.trans.rip = ""
  · simp [Expr.Eval, dnsblEval, hr]
  · rcases h with h | h
    · exact absurd h hr
    · have hb : (c.trans.rip == "") = false := by
        simpa using hr
      have hlen : ((c.trans.rip.splitOn ".").length != 4) = true := by
        simpa using h
      simp [Expr.Eval, dnsblEval, hb, hlen]

/-- Witness for C10: the context with the empty remote IP. -/
theorem dnsblN_ipv4_guard_witness :
    (cDemo.trans.rip = "" ∨ (cDemo.trans.rip.splitOn ".").length ≠ 4)
    ∧ Expr.Eval (.dnsblN "dbl.example") cDemo = some (false, cDemo) :=
  ⟨Or.inl rfl, dnsblN_ipv4_guard "dbl.example" cDemo (Or.inl rfl)⟩

/-! ## Lemmas about the dbl probe loop and candidate set -/

/-- Closed form of `dblLoop`: the boolean is the OR of the probe over the
candidates, and the context gains one hit entry — always the DBL domain
itself — per hitting candidate.  In particular the loop visits every
candidate: a hit does not cut it short. -/
theorem dblLoop_spec (domain : String) (l : List String) : ∀ (ret : Bool) (c : Context),
    dblLoop domain l ret c =
      (ret || l.any fun s => c.dnsblprobe (s ++ "." ++ domain),
       { c with dnsblhits := c.dnsblhits
          ++ List.replicate (l.countP fun s => c.dnsblprobe (s ++ "." ++ domain)) domain }) := by
  induction l with
  | nil => intro ret c; simp [dblLoop]
  | cons s rest ih =>
    intro ret c
    simp only [dblLoop]
    by_cases h : c.dnsblprobe (s ++ "." ++ domain)
    · rw [if_pos h, ih]
      simp [Context.addDnsblHit, h, List.countP_cons, List.replicate_succ]
    · rw [if_neg h, ih]
      simp only [Bool.not_eq_true] at h
      simp [List.any_cons, List.countP_cons, h]

/-- A permutation of a list leaves `List.any` unchanged. -/
theorem any_perm_inv {l l' : List String} (p : String → Bool) (h : l.Perm l') :
    l.any p = l'.any p := by
  rcases hl : l.any p with _ | _ <;> rcases hl' : l'.any p with _ | _ <;> try rfl
  · rw [List.any_eq_false] at hl
    rw [List.any_eq_true] at hl'
    obtain ⟨x, hx, hpx⟩ := hl'
    exact absurd hpx (by simpa using hl x (h.mem_iff.mpr hx))
  · rw [List.any_eq_false] at hl'
    rw [List.any_eq_true] at hl
    obtain ⟨x, hx, hpx⟩ := hl
    exact absurd hpx (by simpa using hl' x (h.mem_iff.mp hx))

/-- C3: the outcome of a `dbl` node does not depend on the iteration order
over its deduplicated candidate set: every enumeration `l` of the set gives
the evaluation's value; the boolean is the OR of the probe over the whole
set (no short-circuit: every candidate is probed even after a hit, each hit
counted), and every recorded hit entry is the rule's DBL domain itself, one
per hitting candidate. -/
theorem dblN_order_independent (domain : String) (src : Nat) (c : Context)
    (check l : List String) (h1 : dblCandidates src c = some check)
    (h2 : l.Perm check) :
    Expr.Eval (.dblN domain src) c
      = some (if check.isEmpty then (false, c) else dblLoop domain l false c)
    ∧ (dblLoop domain l false c).1
        = (check.any fun s => c.dnsblprobe (s ++ "." ++ domain))
    ∧ (dblLoop domain l false c).2.dnsblhits
        = c.dnsblhits
          ++ List.replicate (check.countP fun s => c.dnsblprobe (s ++ "." ++ domain)) domain := by
  have hl := dblLoop_spec domain l false c
  have hc := dblLoop_spec domain check false c
  have hany := any_perm_inv (fun s => c.dnsblprobe (s ++ "." ++ domain)) h2
  have hcnt := h2.countP_eq fun s => c.dnsblprobe (s ++ "." ++ domain)
  have hloops : dblLoop domain l false c = dblLoop domain check false c := by
    rw [hl, hc, hany, hcnt]
  refine ⟨?_, ?_, ?_⟩
  · simp [Expr.Eval, dblEval, h1, hloops]
  · rw [hloops, hc]
    simp
  · rw [hloops, hc]

/-- Witness for C3: a helo-sourced `dbl` whose candidate set is the single
helo name; its loop produces one hit entry, the DBL domain. -/
theorem dblN_order_independent_witness :
    dblCandidates oHelo cDemo = some ["helo.example"]
    ∧ (dblLoop "dbl.example" ["helo.example"] false cDemo).1
        = (["helo.example"].any fun s => cDemo.dnsblprobe (s ++ "." ++ "dbl.example")) :=
  ⟨by decide,
   (dblN_order_independent "dbl.example" oHelo cDemo ["helo.example"] ["helo.example"]
     (by decide) (List.Perm.refl _)).2.1⟩

/-! ## Lemmas about the reverse-DNS candidate stripping -/

/-- `insertStripped` panics exactly when one of the names is empty. -/
theorem insertStripped_none_iff : ∀ (names l : List String),
    insertStripped l names = none ↔ "" ∈ names := by
  intro names
  induction names with
  | nil => intro l; simp [insertStripped]
  | cons s rest ih =>
    intro l
    by_cases hs : s = ""
    · subst hs
      have hnone : stripDot "" = none := by decide
      simp [insertStripped, hnone]
    · have h : s.isEmpty = false := by
        rcases hh : s.isEmpty with _ | _
        · rfl
        · exact absurd ((String.isEmpty_iff s).mp hh) hs
      simp [insertStripped, stripDot, h, ih, Ne.symm hs]

/-- A name is a member of its own insertion. -/
theorem mem_insertName_self (l : List String) (s : String) : s ∈ insertName l s := by
  by_cases h : s ∈ l <;> simp [insertName, h]

/-- Insertion preserves the existing members. -/
theorem mem_insertName_of_mem (l : List String) (s x : String) (h : x ∈ l) :
    x ∈ insertName l s := by
  by_cases hs : s ∈ l <;> simp [insertName, hs, h]

/-- When `insertStripped` succeeds, the result keeps every prior member
and contains each listed name with its final character removed. -/
theorem insertStripped_some_mem : ∀ (names l l' : List String),
    insertStripped l names = some l' →
    (∀ x ∈ l, x ∈ l') ∧ (∀ s ∈ names, s.dropRight 1 ∈ l') := by
  intro names
  induction names with
  | nil =>
    intro l l' h
    simp only [insertStripped, Option.some_inj] at h
    subst h
    exact ⟨fun x hx => hx, by simp⟩
  | cons s rest ih =>
    intro l l' h
    by_cases hs : s.isEmpty
    · simp [insertStripped, stripDot, hs] at h
    · simp only [insertStripped, stripDot, hs, Bool.false_eq_true, if_false,
        Option.bind_eq_bind, Option.some_bind] at h
      obtain ⟨hkeep, hmem⟩ := ih (insertName l (s.dropRight 1)) l' h
      refine ⟨fun x hx => hkeep x (mem_insertName_of_mem l (s.dropRight 1) x hx), ?_⟩
      intro t ht
      rcases List.mem_cons.mp ht with rfl | ht'
      · exact hkeep (t.dropRight 1) (mem_insertName_self l (t.dropRight 1))
      · exact hmem t ht'

/-- The three-list stripping chain of the host branch succeeds exactly when
none of the three lists contains the empty string. -/
theorem insertChain_isSome (l0 v n i : List String) :
    ((insertStripped l0 v).bind fun a =>
      (insertStripped a n).bind fun b => insertStripped b i).isSome = true
    ↔ ("" ∉ v ∧ "" ∉ n ∧ "" ∉ i) := by
  cases hv : insertStripped l0 v with
  | none =>
    have := (insertStripped_none_iff v l0).mp hv
    simp [this]
  | some a =>
    have hv' : "" ∉ v := fun hmem => by
      rw [(insertStripped_none_iff v l0).mpr hmem] at hv
      cases hv
    cases hn : insertStripped a n with
    | none =>
      have := (insertStripped_none_iff n a).mp hn
      simp [this, hn]
    | some b =>
      have hn' : "" ∉ n := fun hmem => by
        rw [(insertStripped_none_iff n a).mpr hmem] at hn
        cases hn
      cases hi : insertStripped b i with
      | none =>
        have := (insertStripped_none_iff i b).mp hi
        simp [this, hn, hi]
      | some r =>
        have hi' : "" ∉ i := fun hmem => by
          rw [(insertStripped_none_iff i b).mpr hmem] at hi
          cases hi
        simp [hn, hi, hv', hn', hi']

/-- When the stripping chain succeeds, its result keeps the prior members
and holds every listed name with its final character removed. -/
theorem insertChain_mem (l0 v n i res : List String)
    (h : ((insertStripped l0 v).bind fun a =>
      (insertStripped a n).bind fun b => insertStripped b i) = some res) :
    (∀ x ∈ l0, x ∈ res)
    ∧ (∀ s, (s ∈ v ∨ s ∈ n ∨ s ∈ i) → s.dropRight 1 ∈ res) := by
  cases hv : insertStripped l0 v with
  | none => rw [hv] at h; cases h
  | some a =>
    rw [hv] at h
    simp only [Option.some_bind] at h
    cases hn : insertStripped a n with
    | none => rw [hn] at h; cases h
    | some b =>
      rw [hn] at h
      simp only [Option.some_bind] at h
      obtain ⟨hk1, hm1⟩ := insertStripped_some_mem v l0 a hv
      obtain ⟨hk2, hm2⟩ := insertStripped_some_mem n a b hn
      obtain ⟨hk3, hm3⟩ := insertStripped_some_mem i b res h
      refine ⟨fun x hx => hk3 x (hk2 x (hk1 x hx)), ?_⟩
      intro s hs
      rcases hs with hs | hs | hs
      · exact hk3 _ (hk2 _ (hm1 s hs))
      · exact hk3 _ (hm2 s hs)
      · exact hm3 s hs

/-- C9: with the host source selected, a `dbl` node's evaluation is total
(no panic) exactly when no reverse-DNS list holds an empty string — the
`s[:len(s)-1]` slice is out of range precisely on an empty name — and the
candidate derived from each listed name is that name with its final
character (the trailing root dot) removed. -/
theorem dblN_host_strip_total (domain : String) (src : Nat) (c : Context)
    (hsrc : src &&& oHost = oHost) :
    ((Expr.Eval (.dblN domain src) c).isSome = true ↔
      ("" ∉ c.trans.rdns.verified ∧ "" ∉ c.trans.rdns.nofwd ∧ "" ∉ c.trans.rdns.inconsist))
    ∧ (∀ check, dblCandidates src c = some check →
        ∀ s, (s ∈ c.trans.rdns.verified ∨ s ∈ c.trans.rdns.nofwd ∨ s ∈ c.trans.rdns.inconsist) →
          s.dropRight 1 ∈ check) := by
  have hchain : dblCandidates src c =
      ((insertStripped
          (if (src &&& (oEhlo ||| oHelo)) != 0 && c.heloname != "" then
            insertName [] c.heloname else [])
          c.trans.rdns.verified).bind fun a =>
        (insertStripped a c.trans.rdns.nofwd).bind fun b =>
          insertStripped b c.trans.rdns.inconsist).bind fun check1 =>
        some (if (src &&& oFrom) == oFrom && c.fromAddr != "" then
                if (c.addrOptions c.fromAddr &&&
                    (oDomainValid ||| oDomainInvalid ||| oDomainTempfail)) != 0 then
                  insertName check1 (afterAt c.fromAddr)
                else check1
              else check1) := by
    simp [dblCandidates, hsrc, Option.bind_assoc]
  have hiso : (Expr.Eval (.dblN domain src) c).isSome = (dblCandidates src c).isSome := by
    simp [Expr.Eval, dblEval, Option.isSome_map']
  constructor
  · rw [hiso, hchain]
    cases hch : ((insertStripped
          (if (src &&& (oEhlo ||| oHelo)) != 0 && c.heloname != "" then
            insertName [] c.heloname else [])
          c.trans.rdns.verified).bind fun a =>
        (insertStripped a c.trans.rdns.nofwd).bind fun b =>
          insertStripped b c.trans.rdns.inconsist) with
    | none =>
      have hks := insertChain_isSome
        (if (src &&& (oEhlo ||| oHelo)) != 0 && c.heloname != "" then
          insertName [] c.heloname else [])
        c.trans.rdns.verified c.trans.rdns.nofwd c.trans.rdns.inconsist
      rw [hch] at hks
      simpa using hks
    | some x =>
      have hks := insertChain_isSome
        (if (src &&& (oEhlo ||| oHelo)) != 0 && c.heloname != "" then
          insertName [] c.heloname else [])
        c.trans.rdns.verified c.trans.rdns.nofwd c.trans.rdns.inconsist
      rw [hch] at hks
      simpa using hks
  · intro check hc s hs
    rw [hchain] at hc
    cases hch : ((insertStripped
          (if (src &&& (oEhlo ||| oHelo)) != 0 && c.heloname != "" then
            insertName [] c.heloname else [])
          c.trans.rdns.verified).bind fun a =>
        (insertStripped a c.trans.rdns.nofwd).bind fun b =>
          insertStripped b c.trans.rdns.inconsist) with
    | none => rw [hch] at hc; cases hc
    | some x =>
      rw [hch] at hc
      simp only [Option.some_bind, Option.some_inj] at hc
      have hx := (insertChain_mem
        (if (src &&& (oEhlo ||| oHelo)) != 0 && c.heloname != "" then
          insertName [] c.heloname else [])
        c.trans.rdns.verified c.trans.rdns.nofwd c.trans.rdns.inconsist x hch).2 s hs
      subst hc
      split
      · split
        · exact mem_insertName_of_mem _ _ _ hx
        · exact hx
      · exact hx

/-- Witness for C9: `cDemo`, whose three reverse-DNS lists hold the
non-empty names `v.example.`, `n.example.`, `i.example.`. -/
theorem dblN_host_strip_total_witness :
    oHost &&& oHost = oHost
    ∧ (((Expr.Eval (.dblN "dbl.example" oHost) cDemo).isSome = true ↔
        ("" ∉ cDemo.trans.rdns.verified ∧ "" ∉ cDemo.trans.rdns.nofwd ∧
          "" ∉ cDemo.trans.rdns.inconsist))
      ∧ (∀ check, dblCandidates oHost cDemo = some check →
          ∀ s, (s ∈ cDemo.trans.rdns.verified ∨ s ∈ cDemo.trans.rdns.nofwd ∨
            s ∈ cDemo.trans.rdns.inconsist) → s.dropRight 1 ∈ check)) :=
  ⟨by decide, dblN_host_strip_total "dbl.example" oHost cDemo (by decide)⟩

/-! ## Lemmas about the classifier lattice values -/

/-- The address scan never yields the internal undefined value. -/
theorem checkAddrs_fst_ne_undef (domain : String) :
    ∀ (addrs : List IP), (checkAddrs domain addrs).1 ≠ dnsUndef := by
  intro addrs
  induction addrs with
  | nil => exact fun h => by cases h
  | cons i rest ih =>
    simp only [checkAddrs]
    split
    · exact fun h => by cases h
    · split
      · exact fun h => by cases h
      · exact ih

/-- `checkIP` never yields the internal undefined value. -/
theorem checkIP_fst_ne_undef (env : DNSEnv) (domain : String) :
    (checkIP env domain).1 ≠ dnsUndef := by
  unfold checkIP
  cases hip : env.lookupIP domain with
  | error err =>
    show ((if isTemporary err = true then (dnsTempfail, some err)
      else (dnsBad, some err)) : dnsResult × Option GoError).1 ≠ dnsUndef
    by_cases ht : isTemporary err = true
    · rw [if_pos ht]; exact fun h => by cases h
    · rw [if_neg ht]; exact fun h => by cases h
  | ok addrs =>
    show ((if addrs.isEmpty = true then (dnsBad, some (.plain (domain ++ ": no IPs")))
      else checkAddrs domain addrs) : dnsResult × Option GoError).1 ≠ dnsUndef
    by_cases he : addrs.isEmpty = true
    · rw [if_pos he]; exact fun h => by cases h
    · rw [if_neg he]; exact checkAddrs_fst_ne_undef domain addrs

/-- Once the accumulator of the MX loop has left the undefined value, the
loop's classification is never undefined. -/
theorem mxLoop_fst_ne_undef (env : DNSEnv) (domain : String) :
    ∀ (l : List MX) (valid : dnsResult) (verr : Option GoError),
      valid ≠ dnsUndef → (mxLoop env domain l valid verr).1 ≠ dnsUndef := by
  intro l
  induction l with
  | nil => intro valid verr h; simpa [mxLoop] using h
  | cons m rest ih =>
    intro valid verr h
    simp only [mxLoop]
    split
    · exact fun hh => by cases hh
    · split
      · exact fun hh => by cases hh
      · split
        · exact ih _ _ (checkIP_fst_ne_undef env m.Host)
        · exact ih _ _ h

/-- On a non-empty MX list, the loop started at the undefined value never
returns it: the first target either returns bad outright or strictly raises
the accumulator. -/
theorem mxLoop_cons_fst_ne_undef (env : DNSEnv) (domain : String) (m : MX) (rest : List MX) :
    (mxLoop env domain (m :: rest) dnsUndef none).1 ≠ dnsUndef := by
  simp only [mxLoop]
  split
  · exact fun h => by cases h
  · split
    · exact fun h => by cases h
    · split
      · exact mxLoop_fst_ne_undef env domain rest _ _ (checkIP_fst_ne_undef env m.Host)
      · rename_i hlt
        exfalso
        apply checkIP_fst_ne_undef env m.Host
        cases hv : (checkIP env m.Host).1
        · rfl
        · rw [hv] at hlt; exact absurd (by decide) hlt
        · rw [hv] at hlt; exact absurd (by decide) hlt
        · rw [hv] at hlt; exact absurd (by decide) hlt

/-- Counterexample for C2: a resolver whose MX lookup succeeds with an
empty record list makes `ValidDomain` return the internal undefined value,
which is none of bad, tempfail, good. -/
theorem validDomain_lattice_cex :
    ¬((ValidDomain envEmptyMX "example.com").1 = dnsBad
      ∨ (ValidDomain envEmptyMX "example.com").1 = dnsTempfail
      ∨ (ValidDomain envEmptyMX "example.com").1 = dnsGood) := by decide

/-- C2 (amended): `ValidDomain` returns one of the three lattice values
bad, tempfail, good in every case except one — when the MX lookup succeeds
but yields an empty list of MX records, the pre-loop starting value
`dnsUndef` escapes as the returned classification. -/
theorem validDomain_undef_iff_empty_mx (env : DNSEnv) (domain : String) :
    (ValidDomain env domain).1 = dnsUndef ↔ env.lookupMX (domain ++ ".") = .ok [] := by
  unfold ValidDomain
  cases hmx : env.lookupMX (domain ++ ".") with
  | error err =>
    have h1 : ((if isTemporary err = true then
        ((dnsTempfail, some (.plain ("MX tempfail: " ++ err.text))) : dnsResult × Option GoError)
      else checkIP env (domain ++ "."))).1 ≠ dnsUndef := by
      split
      · exact fun h => by cases h
      · exact checkIP_fst_ne_undef env (domain ++ ".")
    simp [h1]
  | ok mxs =>
    cases mxs with
    | nil => simp [mxLoop]
    | cons m rest => simp [mxLoop_cons_fst_ne_undef env domain m rest]

/-- A bogus MX entry anywhere in the list drives the loop to bad, whatever
the accumulator holds. -/
theorem mxLoop_bogus_bad (env : DNSEnv) (domain : String) :
    ∀ (l : List MX) (valid : dnsResult) (verr : Option GoError),
      (∃ m ∈ l, (m.Host = "." ∧ m.Pref = 0) ∨ strToLower m.Host = "."
        ∨ strToLower m.Host = "localhost.") →
      (mxLoop env domain l valid verr).1 = dnsBad := by
  intro l
  induction l with
  | nil => intro valid verr h; simp at h
  | cons m rest ih =>
    intro valid verr h
    simp only [mxLoop]
    split
    · rfl
    · rename_i h705
      split
      · rfl
      · rename_i hlc
        have hrest : ∃ m' ∈ rest, (m'.Host = "." ∧ m'.Pref = 0) ∨ strToLower m'.Host = "."
            ∨ strToLower m'.Host = "localhost." := by
          rcases h with ⟨m', hm', hcase⟩
          rcases List.mem_cons.mp hm' with rfl | hmem
          · exfalso
            rcases hcase with ⟨hdot, hpref⟩ | hlow | hlow
            · exact h705 (by simp [hdot, hpref])
            · exact hlc (by simp [hlow])
            · exact hlc (by simp [hlow])
          · exact ⟨m', hmem, hcase⟩
        split
        · exact ih _ _ hrest
        · exact ih _ _ hrest

/-- C5: any MX record whose target is exactly `.` at preference 0, or whose
lower-cased target is `.` or `localhost.` at any preference, classifies the
whole domain bad, whatever the other MX records are. -/
theorem validDomain_bogus_mx_bad (env : DNSEnv) (domain : String) (mxs : List MX)
    (h1 : env.lookupMX (domain ++ ".") = .ok mxs)
    (h2 : ∃ m ∈ mxs, (m.Host = "." ∧ m.Pref = 0) ∨ strToLower m.Host = "."
      ∨ strToLower m.Host = "localhost.") :
    (ValidDomain env domain).1 = dnsBad := by
  unfold ValidDomain
  rw [h1]
  exact mxLoop_bogus_bad env domain mxs dnsUndef none h2

/-- A resolver with one sound MX target and one `LocalHost.` target. -/
def envBogusMX : DNSEnv where
  lookupMX := fun _ => .ok [⟨"mx.ok.example.", 10⟩, ⟨"LocalHost.", 20⟩]
  lookupIP := fun _ => .ok [⟨"1.2.3.4", true, false⟩]

/-- Witness for C5: the `LocalHost.` MX at preference 20 makes the domain
bad although its sibling MX target resolves to a good address. -/
theorem validDomain_bogus_mx_bad_witness :
    envBogusMX.lookupMX ("example.org" ++ ".")
        = .ok [⟨"mx.ok.example.", 10⟩, ⟨"LocalHost.", 20⟩]
    ∧ (∃ m ∈ [(⟨"mx.ok.example.", 10⟩ : MX), ⟨"LocalHost.", 20⟩],
        (m.Host = "." ∧ m.Pref = 0) ∨ strToLower m.Host = "."
          ∨ strToLower m.Host = "localhost.")
    ∧ (ValidDomain envBogusMX "example.org").1 = dnsBad :=
  ⟨rfl, by decide,
   validDomain_bogus_mx_bad envBogusMX "example.org"
     [⟨"mx.ok.example.", 10⟩, ⟨"LocalHost.", 20⟩] rfl (by decide)⟩

/-! ## The order on dnsResult and the fold it induces -/

/-- The strict order is irreflexive. -/
theorem dnsLt_irrefl : ∀ a : dnsResult, dnsLt a a = false := by
  intro a; cases a <;> decide

/-- `dnsMax` dominates its left argument. -/
theorem dnsMax_ge_left : ∀ a x : dnsResult, dnsLt (dnsMax a x) a = false := by
  intro a x; cases a <;> cases x <;> decide

/-- `dnsMax` dominates its right argument. -/
theorem dnsMax_ge_right : ∀ a x : dnsResult, dnsLt (dnsMax a x) x = false := by
  intro a x; cases a <;> cases x <;> decide

/-- Transitivity of the reflexive order `dnsLt · · = false`. -/
theorem dnsLe_trans : ∀ x y z : dnsResult,
    dnsLt x y = false → dnsLt y z = false → dnsLt x z = false := by
  intro x y z; cases x <;> cases y <;> cases z <;> decide

/-- A strictly smaller value is distinct. -/
theorem dnsLt_ne : ∀ a b : dnsResult, dnsLt a b = true → ¬(b = a) := by
  intro a b; cases a <;> cases b <;> decide

/-- Below-or-equal and distinct make the order strict the other way. -/
theorem dnsLe_ne_lt : ∀ a b : dnsResult,
    dnsLt a b = false → ¬(a = b) → dnsLt b a = true := by
  intro a b; cases a <;> cases b <;> decide

/-- Strict-then-reflexive chaining. -/
theorem dnsLt_le_trans : ∀ a b c : dnsResult,
    dnsLt a b = true → dnsLt c b = false → dnsLt a c = true := by
  intro a b c; cases a <;> cases b <;> cases c <;> decide

/-- Nothing sits strictly below the undefined value. -/
theorem dnsLe_undef_eq : ∀ x : dnsResult, dnsLt dnsUndef x = false → x = dnsUndef := by
  intro x; cases x <;> decide

/-- The best-result fold never drops below its start. -/
theorem foldl_checkMax_ge (env : DNSEnv) :
    ∀ (l : List MX) (a : dnsResult),
      dnsLt (l.foldl (fun x m => dnsMax x (checkIP env m.Host).1) a) a = false := by
  intro l
  induction l with
  | nil => intro a; exact dnsLt_irrefl a
  | cons m rest ih =>
    intro a
    rw [List.foldl_cons]
    exact dnsLe_trans _ _ _ (ih (dnsMax a (checkIP env m.Host).1))
      (dnsMax_ge_left a (checkIP env m.Host).1)

/-- The best-result fold dominates every listed target's result. -/
theorem foldl_checkMax_le_mem (env : DNSEnv) :
    ∀ (l : List MX) (a : dnsResult) (m : MX), m ∈ l →
      dnsLt (l.foldl (fun x m => dnsMax x (checkIP env m.Host).1) a) (checkIP env m.Host).1
        = false := by
  intro l
  induction l with
  | nil => intro a m hm; cases hm
  | cons m0 rest ih =>
    intro a m hm
    rw [List.foldl_cons]
    rcases List.mem_cons.mp hm with rfl | hmem
    · exact dnsLe_trans _ _ _ (foldl_checkMax_ge env rest (dnsMax a (checkIP env m.Host).1))
        (dnsMax_ge_right a (checkIP env m.Host).1)
    · exact ih (dnsMax a (checkIP env m0.Host).1) m hmem

/-- The best-result fold is its start or is attained by a listed target. -/
theorem foldl_checkMax_attained (env : DNSEnv) :
    ∀ (l : List MX) (a : dnsResult),
      l.foldl (fun x m => dnsMax x (checkIP env m.Host).1) a = a
      ∨ ∃ m ∈ l, (checkIP env m.Host).1
          = l.foldl (fun x m => dnsMax x (checkIP env m.Host).1) a := by
  intro l
  induction l with
  | nil => intro a; exact Or.inl rfl
  | cons m rest ih =>
    intro a
    rw [List.foldl_cons]
    rcases ih (dnsMax a (checkIP env m.Host).1) with hbase | ⟨m', hm', hp⟩
    · by_cases hlt : dnsLt a (checkIP env m.Host).1 = true
      · refine Or.inr ⟨m, List.mem_cons_self m rest, ?_⟩
        rw [hbase]
        simp [dnsMax, hlt]
      · left
        rw [hbase]
        simp [dnsMax, hlt]
    · exact Or.inr ⟨m', List.mem_cons_of_mem m hm', hp⟩

/-- Closed form of the MX loop on a list with no bogus entries: the
classification is the `dnsMax` fold of the targets' `checkIP` results over
the accumulator, and the error is kept from the incoming accumulator unless
the fold strictly improved on it, in which case it is the error of the
first target attaining the final value. -/
theorem mxLoop_clean (env : DNSEnv) (domain : String) :
    ∀ (l : List MX),
      (∀ m ∈ l, strToLower m.Host ≠ "." ∧ strToLower m.Host ≠ "localhost.") →
      ∀ (valid : dnsResult) (verr : Option GoError),
        mxLoop env domain l valid verr =
          (l.foldl (fun x m => dnsMax x (checkIP env m.Host).1) valid,
           if l.foldl (fun x m => dnsMax x (checkIP env m.Host).1) valid = valid then verr
           else
             match l.find? (fun m => (checkIP env m.Host).1
                 == l.foldl (fun x m => dnsMax x (checkIP env m.Host).1) valid) with
             | some m0 => (checkIP env m0.Host).2
             | none => verr) := by
  intro l
  induction l with
  | nil =>
    intro hb valid verr
    simp [mxLoop]
  | cons m rest ih =>
    intro hb valid verr
    obtain ⟨hm1, hm2⟩ := hb m (List.mem_cons_self m rest)
    have hbrest : ∀ m' ∈ rest, strToLower m'.Host ≠ "." ∧ strToLower m'.Host ≠ "localhost." :=
      fun m' hm' => hb m' (List.mem_cons_of_mem m hm')
    have h705 : ¬((m.Host == "." && m.Pref == 0) = true) := by
      intro hx
      have hdot : m.Host = "." := eq_of_beq ((Bool.and_eq_true _ _).mp hx).1
      apply hm1
      rw [hdot]
      decide
    have hlcne : ¬((strToLower m.Host == "." || strToLower m.Host == "localhost.") = true) := by
      intro hx
      have hx' : strToLower m.Host = "." ∨ strToLower m.Host = "localhost." := by
        simpa using hx
      rcases hx' with h | h
      · exact hm1 h
      · exact hm2 h
    simp only [mxLoop]
    rw [if_neg h705, if_neg hlcne]
    by_cases hlt : dnsLt valid (checkIP env m.Host).1 = true
    · rw [if_pos hlt]
      rw [ih hbrest (checkIP env m.Host).1 (checkIP env m.Host).2]
      have hmax : dnsMax valid (checkIP env m.Host).1 = (checkIP env m.Host).1 := by
        simp [dnsMax, hlt]
      simp only [List.foldl_cons, hmax]
      congr 1
      by_cases hFv : rest.foldl (fun x m => dnsMax x (checkIP env m.Host).1)
          (checkIP env m.Host).1 = (checkIP env m.Host).1
      · rw [if_pos hFv]
        have hne : ¬(rest.foldl (fun x m => dnsMax x (checkIP env m.Host).1)
            (checkIP env m.Host).1 = valid) := by
          rw [hFv]
          exact dnsLt_ne valid (checkIP env m.Host).1 hlt
        rw [if_neg hne]
        rw [List.find?_cons_of_pos _ (by rw [hFv]; exact beq_self_eq_true _)]
      · rw [if_neg hFv]
        have hvM : dnsLt valid (rest.foldl (fun x m => dnsMax x (checkIP env m.Host).1)
            (checkIP env m.Host).1) = true :=
          dnsLt_le_trans valid (checkIP env m.Host).1 _ hlt
            (foldl_checkMax_ge env rest (checkIP env m.Host).1)
        have hne : ¬(rest.foldl (fun x m => dnsMax x (checkIP env m.Host).1)
            (checkIP env m.Host).1 = valid) :=
          dnsLt_ne valid _ hvM
        rw [if_neg hne]
        have hmne : ¬(((checkIP env m.Host).1
            == rest.foldl (fun x m => dnsMax x (checkIP env m.Host).1)
              (checkIP env m.Host).1) = true) := by
          intro hx
          exact hFv (eq_of_beq hx).symm
        rw [@List.find?_cons_of_neg MX
          (fun m' => (checkIP env m'.Host).1
            == rest.foldl (fun x m2 => dnsMax x (checkIP env m2.Host).1) (checkIP env m.Host).1)
          m rest hmne]
        cases hfind : rest.find? (fun m' => (checkIP env m'.Host).1
            == rest.foldl (fun x m => dnsMax x (checkIP env m.Host).1)
              (checkIP env m.Host).1) with
        | some m0 => rfl
        | none =>
          rcases foldl_checkMax_attained env rest (checkIP env m.Host).1 with hc | ⟨m', hm', hp⟩
          · exact absurd hc hFv
          · rw [List.find?_eq_none] at hfind
            exact absurd (by rw [hp]; exact beq_self_eq_true _) (hfind m' hm')
    · rw [if_neg hlt]
      rw [ih hbrest valid verr]
      have hmax : dnsMax valid (checkIP env m.Host).1 = valid := by
        simp [dnsMax, hlt]
      simp only [List.foldl_cons, hmax]
      congr 1
      by_cases hF : rest.foldl (fun x m => dnsMax x (checkIP env m.Host).1) valid = valid
      · rw [if_pos hF, if_pos hF]
      · rw [if_neg hF, if_neg hF]
        have hvltF : dnsLt valid (rest.foldl (fun x m => dnsMax x (checkIP env m.Host).1)
            valid) = true :=
          dnsLe_ne_lt _ valid (foldl_checkMax_ge env rest valid) hF
        have hmne : ¬(((checkIP env m.Host).1
            == rest.foldl (fun x m => dnsMax x (checkIP env m.Host).1) valid) = true) := by
          intro hx
          rw [← eq_of_beq hx] at hvltF
          exact hlt hvltF
        rw [@List.find?_cons_of_neg MX
          (fun m' => (checkIP env m'.Host).1
            == rest.foldl (fun x m2 => dnsMax x (checkIP env m2.Host).1) valid)
          m rest hmne]

/-- C4: when the MX lookup succeeds and no target is `.` or `localhost.`,
the classification is the maximum of the targets' `checkIP` results under
bad < tempfail < good — attained by some target and dominating every
target, so all targets are visited with no early exit on a good one — and
the returned error is the error of the first target attaining that
maximum. -/
theorem validDomain_mx_max (env : DNSEnv) (domain : String) (mxs : List MX)
    (h1 : env.lookupMX (domain ++ ".") = .ok mxs)
    (h2 : mxs ≠ [])
    (h3 : ∀ m ∈ mxs, strToLower m.Host ≠ "." ∧ strToLower m.Host ≠ "localhost.") :
    (ValidDomain env domain).1 = specMaxMX env mxs
    ∧ (∃ m ∈ mxs, (checkIP env m.Host).1 = specMaxMX env mxs)
    ∧ (∀ m ∈ mxs, dnsLt (specMaxMX env mxs) (checkIP env m.Host).1 = false)
    ∧ (∀ m0, mxs.find? (fun m => (checkIP env m.Host).1 == specMaxMX env mxs) = some m0 →
        (ValidDomain env domain).2 = (checkIP env m0.Host).2) := by
  have hspec : specMaxMX env mxs
      = mxs.foldl (fun x m => dnsMax x (checkIP env m.Host).1) dnsUndef := rfl
  have hclean := mxLoop_clean env domain mxs h3 dnsUndef none
  have hvd : ValidDomain env domain = mxLoop env domain mxs dnsUndef none := by
    unfold ValidDomain
    rw [h1]
  have hatt : ∃ m ∈ mxs, (checkIP env m.Host).1
      = mxs.foldl (fun x m => dnsMax x (checkIP env m.Host).1) dnsUndef := by
    rcases foldl_checkMax_attained env mxs dnsUndef with hc | h
    · exfalso
      obtain ⟨m, hm⟩ : ∃ m, m ∈ mxs := by
        cases mxs with
        | nil => exact absurd rfl h2
        | cons a l => exact ⟨a, List.mem_cons_self a l⟩
      have hle := foldl_checkMax_le_mem env mxs dnsUndef m hm
      rw [hc] at hle
      exact checkIP_fst_ne_undef env m.Host (dnsLe_undef_eq _ hle)
    · exact h
  have hMne : ¬(mxs.foldl (fun x m => dnsMax x (checkIP env m.Host).1) dnsUndef
      = dnsUndef) := by
    intro h0
    obtain ⟨m, hm, hp⟩ := hatt
    rw [h0] at hp
    exact checkIP_fst_ne_undef env m.Host hp
  refine ⟨?_, ?_, ?_, ?_⟩
  · rw [hvd, hclean, hspec]
  · rw [hspec]; exact hatt
  · intro m hm
    rw [hspec]
    exact foldl_checkMax_le_mem env mxs dnsUndef m hm
  · intro m0 hfind
    rw [hspec] at hfind
    rw [hvd, hclean]
    dsimp only
    rw [if_neg hMne, hfind]

/-- The two-MX target list used by the C4 witness. -/
def mxsC4 : List MX := [⟨"mx1.example.", 10⟩, ⟨"mx2.example.", 20⟩]

/-- A resolver where `mx1.example.` SERVFAILs (tempfail) while
`mx2.example.` resolves to a good global-unicast address. -/
def envC4 : DNSEnv where
  lookupMX := fun _ => .ok mxsC4
  lookupIP := fun d =>
    if d == "mx1.example." then .error (.dnsError serverrstr false)
    else .ok [⟨"1.2.3.4", true, false⟩]

/-- Witness for C4: with one tempfail target and one good target the
classification is good, the maximum of the two results. -/
theorem validDomain_mx_max_witness :
    envC4.lookupMX ("example.net" ++ ".") = .ok mxsC4
    ∧ mxsC4 ≠ []
    ∧ (∀ m ∈ mxsC4, strToLower m.Host ≠ "." ∧ strToLower m.Host ≠ "localhost.")
    ∧ (ValidDomain envC4 "example.net").1 = specMaxMX envC4 mxsC4
    ∧ specMaxMX envC4 mxsC4 = dnsGood
    ∧ (checkIP envC4 "mx1.example.").1 = dnsTempfail :=
  ⟨rfl, by decide, by decide,
   (validDomain_mx_max envC4 "example.net" mxsC4 rfl (by decide) (by decide)).1,
   by decide, by decide⟩

end Sinksmtp
